import Mathlib

/-!
Verification of the candidate-matching engine of `src/vector.py`
(class `VectorMatcher`).

The Python code is shallowly embedded: dictionaries with optional keys
become structures with `Option` fields, floating-point numbers become
exact rationals, and the external sentence-embedding model is an
explicit function parameter `encode : String → List ℚ`.  The FAISS
`IndexFlatL2` index is modelled as the list of stored vectors, with
exact squared-Euclidean search implemented as a lexicographic sort on
(distance, position).  The iteration order of a Python `set` (used in
`_find_missing_skills` via `list(set(...))`) is hash-dependent, so it
is modelled as an explicit parameter `setOrder` that is only assumed to
produce a duplicate-free reordering of its input.
-/

namespace VectorMatcher

/-- One entry of the `experience` list inside `cv_data`.  The Python
code accesses the keys `position` and `company` with `.get`, so both
are optional. -/
structure ExperienceEntry where
  position : Option String
  company : Option String
deriving DecidableEq

/-- One entry of the `education` list inside `cv_data`, with the
optional keys `institution` and `degree_type`. -/
structure EducationEntry where
  institution : Option String
  degree_type : Option String
deriving DecidableEq

/-- The `cv_data` dictionary of a candidate: `names`, `skills`,
`experience` and `education`, each defaulting to the empty list when
the key is absent (the code always reads them with `.get(key, [])`). -/
structure CvData where
  names : List String
  skills : List String
  experience : List ExperienceEntry
  education : List EducationEntry
deriving DecidableEq

/-- A candidate document: the Mongo `_id` (already stringified), the
optional free-text `summary`, and the structured `cv_data`. -/
structure Candidate where
  idStr : String
  summary : Option String
  cv_data : CvData
deriving DecidableEq

instance : Inhabited Candidate := ⟨⟨"", none, ⟨[], [], [], []⟩⟩⟩

/-- Python `str.strip()` with no arguments: remove leading and
trailing whitespace.  (Implemented over the character list so that it
evaluates inside the kernel.) -/
def strTrim (s : String) : String :=
  String.mk (((s.toList.dropWhile Char.isWhitespace).reverse.dropWhile
    Char.isWhitespace).reverse)

/-- Python `str.lower()` (ASCII model). -/
def strLower (s : String) : String :=
  String.mk (s.toList.map Char.toLower)

/-- Truthiness of an optional string in Python: `None` and `""` are
falsy.  Returns a zero- or one-element list, which is how the code
conditionally appends such fields. -/
def optTruthy : Option String → List String
  | none => []
  | some s => if s = "" then [] else [s]

/-- The `exp_texts` list of `_create_fallback_text` (src/vector.py,
lines 96-103): position and company of the first 3 experience
entries, keeping only truthy values. -/
def expTexts (cv : CvData) : List String :=
  (cv.experience.take 3).flatMap fun e => optTruthy e.position ++ optTruthy e.company

/-- The `edu_texts` list of `_create_fallback_text` (src/vector.py,
lines 108-115): institution and degree type of the first 2 education
entries, keeping only truthy values. -/
def eduTexts (cv : CvData) : List String :=
  (cv.education.take 2).flatMap fun e => optTruthy e.institution ++ optTruthy e.degree_type

/-- The `text_parts` list built by `_create_fallback_text`
(src/vector.py, lines 81-116): name, skills (first 10), experience and
education clauses, each present only when its source data is
non-empty. -/
def fallbackParts (c : Candidate) : List String :=
  let cv := c.cv_data
  (match cv.names with
    | [] => []
    | n :: _ => ["Ad: " ++ n]) ++
  (if cv.skills.isEmpty then []
    else ["Beceriler: " ++ String.intercalate ", " (cv.skills.take 10)]) ++
  (if cv.experience.isEmpty then []
    else if (expTexts cv).isEmpty then []
    else ["Deneyim: " ++ String.intercalate ", " (expTexts cv)]) ++
  (if cv.education.isEmpty then []
    else if (eduTexts cv).isEmpty then []
    else ["Eğitim: " ++ String.intercalate ", " (eduTexts cv)])

/-- `_create_fallback_text` (src/vector.py, lines 78-123): join the
clauses with `"; "`, falling back to the fixed placeholder
`"Detay bilgi bulunamadı"` when nothing is available.  The Python
`except` branch that returns `"Aday bilgisi"` is unreachable for
well-typed input and is not modelled. -/
def createFallbackText (c : Candidate) : String :=
  let fallback := String.intercalate "; " (fallbackParts c)
  if fallback = "" then "Detay bilgi bulunamadı" else fallback

/-- The per-candidate text preparation of `create_index`
(src/vector.py, lines 48-55): use the summary verbatim when it is
truthy and its stripped length is at least 10, otherwise use the
fallback text. -/
def normalizeText (c : Candidate) : String :=
  let summary := c.summary.getD ""
  if summary = "" ∨ (strTrim summary).length < 10 then createFallbackText c else summary

/-- The list of texts embedded by `create_index` (src/vector.py,
lines 47-56), one per candidate, in order. -/
def createIndexTexts (cands : List Candidate) : List String :=
  cands.map normalizeText

/-- `listStartsWith hay needle` is true when `needle` is a prefix of
`hay` (character lists). -/
def listStartsWith : List Char → List Char → Bool
  | _, [] => true
  | [], _ :: _ => false
  | h :: hs, n :: ns => h = n && listStartsWith hs ns

/-- `listContainsSub hay needle` models the Python substring test
`needle in hay` on character lists. -/
def listContainsSub : List Char → List Char → Bool
  | [], needle => needle.isEmpty
  | h :: t, needle => listStartsWith (h :: t) needle || listContainsSub t needle

/-- `strContains hay needle` models the Python substring test
`needle in hay`. -/
def strContains (hay needle : String) : Bool :=
  listContainsSub hay.toList needle.toList

/-- One step of Python `str.title()`: a letter is uppercased when the
previous character is not a letter, and lowercased otherwise. -/
def pythonTitleAux : Bool → List Char → List Char
  | _, [] => []
  | prevAlpha, c :: cs =>
    (if c.isAlpha then (if prevAlpha then c.toLower else c.toUpper) else c) ::
      pythonTitleAux c.isAlpha cs

/-- Python `str.title()` (ASCII model), used on each matched keyword in
`_find_missing_skills` (src/vector.py, line 245). -/
def pythonTitle (s : String) : String :=
  String.mk (pythonTitleAux false s.toList)

/-- `re.sub(r"\s+", " ", query)` (src/vector.py, line 211): collapse
every maximal whitespace run into a single space.  The boolean tracks
whether the previous character was whitespace. -/
def collapseWsAux : Bool → List Char → List Char
  | _, [] => []
  | prevWs, c :: cs =>
    if c.isWhitespace then
      (if prevWs then collapseWsAux true cs else ' ' :: collapseWsAux true cs)
    else c :: collapseWsAux false cs

/-- `re.sub(r"<[^>]+>", "", query)` (src/vector.py, line 214): delete
every maximal `<...>` group with at least one non-`>` character inside.
The accumulator holds a pending open tag (in reverse); if the input
ends before a closing `>`, the pending characters are kept, matching
the regex which only deletes completed tags. -/
def stripTagsAux : List Char → List Char → List Char
  | pending, [] => pending.reverse
  | pending, c :: cs =>
    match pending with
    | [] => if c = '<' then stripTagsAux [c] cs else c :: stripTagsAux [] cs
    | p :: ps =>
      if c = '>' then
        (if ps.isEmpty && p = '<' then (p :: ps).reverse ++ c :: stripTagsAux [] cs
         else stripTagsAux [] cs)
      else stripTagsAux (c :: p :: ps) cs

/-- Characters kept by `re.sub(r"[^\w\s.,;:-]", "", query)`
(src/vector.py, line 217): word characters, whitespace and `.,;:-`. -/
def keptChar (c : Char) : Bool :=
  c.isAlphanum || c = '_' || c.isWhitespace ||
    c = '.' || c = ',' || c = ';' || c = ':' || c = '-'

/-- `_clean_query` (src/vector.py, lines 207-219): collapse whitespace,
strip HTML tags, drop characters outside `[\w\s.,;:-]`, then strip
leading and trailing whitespace. -/
def cleanQuery (query : String) : String :=
  strTrim (String.mk (((stripTagsAux [] (collapseWsAux false query.toList))).filter keptChar))

/-- The fixed `tech_keywords` vocabulary of `_find_missing_skills`
(src/vector.py, lines 230-236). -/
def techKeywords : List String :=
  ["python", "java", "javascript", "react", "angular", "vue", "node.js",
   "docker", "kubernetes", "aws", "azure", "git", "sql", "mongodb",
   "machine learning", "ai", "data science", "html", "css", "php",
   "django", "flask", "spring", "laravel", "tensorflow", "pytorch",
   "opencv", "pandas", "numpy", "scikit-learn", "tableau", "powerbi"]

/-- The `missing_skills` list of `_find_missing_skills` before the
`list(set(...))` pass (src/vector.py, lines 238-245): every vocabulary
term contained in the lowercased query but not in the space-join of the
lowercased candidate skills, title-cased, in vocabulary order. -/
def missingRaw (query : String) (candidateSkills : List String) : List String :=
  let queryLower := strLower query
  let joined := String.intercalate " " (candidateSkills.map strLower)
  (techKeywords.filter fun t => strContains queryLower t && !(strContains joined t)).map
    pythonTitle

/-- `_find_missing_skills` (src/vector.py, lines 224-251).  The
`list(set(missing_skills))` pass is modelled by the parameter
`setOrder`, constrained where needed to return a duplicate-free
reordering of its input (the CPython set iteration order is
hash-dependent and is not reproduced); then the first 5 entries are
returned. -/
def findMissingSkills (setOrder : List String → List String)
    (query : String) (candidateSkills : List String) : List String :=
  (setOrder (missingRaw query candidateSkills)).take 5

/-- One concrete admissible set ordering: Mathlib dedup (keeps the last
occurrence of each element).  Used to instantiate `setOrder` in
witnesses. -/
def dedupOrder : List String → List String := fun l => l.dedup

/-- `_generate_explanation` (src/vector.py, lines 257-301): pipe-joined
clauses in fixed order, starting with the qualitative tier of the raw
match percentage. -/
def generateExplanation (matchPercentage : ℚ) (missingSkills : List String)
    (c : Candidate) : String :=
  let cv := c.cv_data
  let tier : String :=
    if matchPercentage ≥ 80 then "Çok yüksek uyumluluk"
    else if matchPercentage ≥ 60 then "Yüksek uyumluluk"
    else if matchPercentage ≥ 40 then "Orta seviye uyumluluk"
    else "Düşük uyumluluk"
  let recentPositions :=
    (cv.experience.take 2).flatMap fun e => optTruthy e.position
  let parts :=
    [tier] ++
    (match cv.names with
      | [] => []
      | n :: _ => ["Aday: " ++ n]) ++
    (if cv.skills.isEmpty then []
      else ["Ana beceriler: " ++ String.intercalate ", " (cv.skills.take 3)]) ++
    (if cv.experience.isEmpty then []
      else if recentPositions.isEmpty then []
      else ["Son pozisyonlar: " ++ String.intercalate ", " recentPositions]) ++
    (if missingSkills.isEmpty then []
      else ["Geliştirilebilir alanlar: " ++
        String.intercalate ", " (missingSkills.take 3)])
  String.intercalate " | " parts

/-- The distance-to-percentage conversion of `find_matches`
(src/vector.py, lines 168-171): `similarity = 1 / (1 + distance)` and
`match_percentage = similarity * 100`, computed on the raw squared
Euclidean distance. -/
def matchPercentageRaw (distance : ℚ) : ℚ :=
  (1 / (1 + distance)) * 100

/-- Floor of a rational, written with `Int.fdiv` so that it evaluates
inside the kernel. -/
def ratFloor (q : ℚ) : ℤ :=
  q.num.fdiv (q.den : ℤ)

/-- `ratFloor` agrees with the mathematical floor. -/
theorem ratFloor_eq_floor (q : ℚ) : ratFloor q = ⌊q⌋ := by
  rw [ratFloor, Int.fdiv_eq_ediv _ (by exact_mod_cast q.pos.le), Rat.floor_def]

/-- Python `round(x, 2)` (src/vector.py, line 189), modelled as
round-half-up on exact rationals.  Python uses round-half-even, which
differs only at exact half-cent values; no such value occurs in this
development. -/
def roundTo2 (x : ℚ) : ℚ :=
  (ratFloor (x * 100 + 1 / 2) : ℚ) / 100

/-- Squared Euclidean distance between two vectors, the metric of
`faiss.IndexFlatL2`.  Both vectors are assumed to have the index
dimension (FAISS enforces this). -/
def sqDist (a b : List ℚ) : ℚ :=
  ((a.zipWith (fun x y => (x - y) * (x - y)) b)).sum

/-- Ascending comparison used by the FAISS search model: by distance,
with ties broken by position so the result is deterministic. -/
def hitLe (a b : ℕ × ℚ) : Prop :=
  a.2 < b.2 ∨ (a.2 = b.2 ∧ a.1 ≤ b.1)

instance : DecidableRel hitLe := fun a b => by
  unfold hitLe; infer_instance

/-- Model of `faiss.IndexFlatL2.search` restricted to one query vector
(src/vector.py, lines 157-160): the positions `0 .. n-1` paired with
their exact squared Euclidean distances to the query, sorted by
ascending distance, truncated to `k` results. -/
def faissSearch (vecs : List (List ℚ)) (q : List ℚ) (k : ℕ) : List (ℕ × ℚ) :=
  (List.insertionSort hitLe
    ((List.range vecs.length).map fun j => (j, sqDist q (vecs.getD j [])))).take k

/-- A raw match entry as assembled inside the result loop of
`find_matches` (src/vector.py, lines 187-193). -/
structure MatchResult where
  candidate_id : String
  match_percentage : ℚ
  missing_skills : List String
  explanation : String
  distance : ℚ
deriving DecidableEq

instance : Inhabited MatchResult := ⟨⟨"", 0, [], "", 0⟩⟩

/-- The result loop of `find_matches` (src/vector.py, lines 163-195):
for each hit, skip positions outside the candidate list, convert the
distance to a percentage, skip entries below `min_score` (compared on
the unrounded percentage), and build the result record, storing the
percentage rounded to 2 decimals. -/
def buildRawResults (setOrder : List String → List String) (query : String)
    (cands : List Candidate) (minScore : ℚ) (hits : List (ℕ × ℚ)) : List MatchResult :=
  hits.filterMap fun h =>
    match cands.get? h.1 with
    | none => none
    | some cand =>
      let mp := matchPercentageRaw h.2
      if mp < minScore then none
      else
        let missing := findMissingSkills setOrder query cand.cv_data.skills
        some { candidate_id := cand.idStr
               match_percentage := roundTo2 mp
               missing_skills := missing
               explanation := generateExplanation mp missing cand
               distance := h.2 }

/-- Descending comparison on a rational key; with a stable sort this is
the semantics of Python `list.sort(key=..., reverse=True)`. -/
def descBy (key : MatchResult → ℚ) (a b : MatchResult) : Prop :=
  key b ≤ key a

instance (key : MatchResult → ℚ) : DecidableRel (descBy key) := fun a b => by
  unfold descBy; infer_instance

instance (key : MatchResult → ℚ) : IsTotal MatchResult (descBy key) :=
  ⟨fun a b => (le_total (key b) (key a)).imp id id⟩

instance (key : MatchResult → ℚ) : IsTrans MatchResult (descBy key) :=
  ⟨fun _ _ _ hab hbc => le_trans hbc hab⟩

/-- The final sort of `find_matches` (src/vector.py, line 198):
`results.sort(key=lambda x: x["match_percentage"], reverse=True)`.
The sort key is the stored, already rounded percentage. -/
def sortResultsByStored (results : List MatchResult) : List MatchResult :=
  List.insertionSort (descBy fun r => r.match_percentage) results

/-- Modelled from the spec: the numeric policy of section 4.4 claims
the sorting comparisons are performed on the full-precision percentage
before rounding.  This variant sorts on the unrounded percentage
recomputed from the stored raw distance, for comparison with
`sortResultsByStored`. -/
def sortResultsByRaw (results : List MatchResult) : List MatchResult :=
  List.insertionSort (descBy fun r => matchPercentageRaw r.distance) results

/-- The mutable state of a `VectorMatcher` instance: `self.index`
(modelled as the list of indexed vectors, `None` before any build) and
`self.candidates`. -/
structure MatcherState where
  index : Option (List (List ℚ))
  candidates : List Candidate

/-- The errors raised by `find_matches`: the explicit `ValueError`s of
lines 137-141 of src/vector.py, plus the generic wrapper exception of
line 205 re-raising any failure inside the `try` block (in particular
the FAISS assertion rejecting a non-positive `k`). -/
inductive MatchError where
  | indexNotBuilt
  | invalidQuery
  | searchFailed
deriving DecidableEq

/-- `find_matches` (src/vector.py, lines 125-205).  Checks, in order:
index built, then query non-empty with stripped length at least 3
(`k` is never validated).  Then the query is cleaned, embedded, and
searched with `k` clamped to the index size; a non-positive clamped `k`
makes the FAISS call fail, which the generic `except` re-raises.  The
surviving hits are converted to results and stably sorted descending by
the stored match percentage. -/
def findMatches (encode : String → List ℚ) (setOrder : List String → List String)
    (st : MatcherState) (query : String) (k : ℤ) (minScore : ℚ) :
    Except MatchError (List MatchResult) :=
  match st.index with
  | none => .error .indexNotBuilt
  | some vecs =>
    if query = "" ∨ (strTrim query).length < 3 then .error .invalidQuery
    else
      let cleaned := cleanQuery query
      let qvec := encode cleaned
      let kAct : ℤ := min k (vecs.length : ℤ)
      if kAct ≤ 0 then .error .searchFailed
      else
        .ok (sortResultsByStored
          (buildRawResults setOrder query st.candidates minScore
            (faissSearch vecs qvec kAct.toNat)))

/-- The errors raised by `create_index`: the empty-list `ValueError` of
line 41 of src/vector.py, and the generic wrapper of line 76 re-raising
any failure inside the `try` block. -/
inductive BuildError where
  | emptyCorpus
  | buildFailed
deriving DecidableEq

/-- `create_index` (src/vector.py, lines 33-76) as a state transition,
with its two classes of in-`try` failure points.  `encode?` stands for
`self.model.encode(texts)` (line 60) and any failure up to and
including the `faiss.IndexFlatL2` constructor call of line 63: such a
failure happens before `self.index` is reassigned, so the old index
survives next to the already replaced candidate list.  After line 63
has assigned a fresh empty index, `add?` stands for the
`np.array(...).astype('float32')` conversion, the NaN cleanup, and
`self.index.add(...)` of lines 64-71 (its result is the vector list
actually added): a failure there leaves that fresh empty index in
place.  The assignment `self.candidates = candidates` (line 44)
precedes every fallible step. -/
def createIndexSt (encode? : String → Option (List ℚ))
    (add? : List (List ℚ) → Option (List (List ℚ))) (st : MatcherState)
    (cands : List Candidate) : MatcherState × Option BuildError :=
  if cands.isEmpty then (st, some .emptyCorpus)
  else
    let st1 : MatcherState := { st with candidates := cands }
    match (createIndexTexts cands).mapM encode? with
    | none => (st1, some .buildFailed)
    | some embs =>
      let st2 : MatcherState := { st1 with index := some [] }
      match add? embs with
      | none => (st2, some .buildFailed)
      | some arr => ({ index := some arr, candidates := cands }, none)

/-- `update_candidate` (src/vector.py, lines 363-384): replace the
first candidate with the given id in `self.candidates`, then rebuild
the index over the updated list. -/
def updateCandidateSt (encode? : String → Option (List ℚ))
    (add? : List (List ℚ) → Option (List (List ℚ))) (st : MatcherState)
    (candidateId : String) (newData : Candidate) : MatcherState × Option BuildError :=
  let updated :=
    match st.candidates.findIdx? (fun c => c.idStr = candidateId) with
    | none => st.candidates
    | some i => st.candidates.set i newData
  createIndexSt encode? add? { st with candidates := updated } updated

deriving instance DecidableEq for Except

/-! ### Helper lemmas about the result pipeline -/

/-- Every entry produced by the result loop stores the rounded
percentage of its own stored distance, and survived the `min_score`
filter on the unrounded percentage. -/
theorem mem_buildRawResults {setOrder : List String → List String} {query : String}
    {cands : List Candidate} {minScore : ℚ} {hits : List (ℕ × ℚ)} {r : MatchResult}
    (h : r ∈ buildRawResults setOrder query cands minScore hits) :
    r.match_percentage = roundTo2 (matchPercentageRaw r.distance) ∧
      minScore ≤ matchPercentageRaw r.distance := by
  simp only [buildRawResults, List.mem_filterMap] at h
  obtain ⟨a, _, heq⟩ := h
  rcases hg : cands.get? a.1 with _ | cand <;> rw [hg] at heq
  · exact absurd heq (by simp)
  · simp only at heq
    by_cases hlt : matchPercentageRaw a.2 < minScore
    · rw [if_pos hlt] at heq
      exact absurd heq (by simp)
    · rw [if_neg hlt] at heq
      obtain rfl := Option.some_injective _ heq
      exact ⟨rfl, le_of_not_lt hlt⟩

/-- On success, `find_matches` returns exactly the stably sorted result
list built from the FAISS hits of the cleaned, embedded query. -/
theorem findMatches_ok_shape {encode : String → List ℚ}
    {setOrder : List String → List String} {st : MatcherState} {query : String}
    {k : ℤ} {minScore : ℚ} {vecs : List (List ℚ)} {res : List MatchResult}
    (hidx : st.index = some vecs)
    (h : findMatches encode setOrder st query k minScore = .ok res) :
    res = sortResultsByStored
      (buildRawResults setOrder query st.candidates minScore
        (faissSearch vecs (encode (cleanQuery query)) (min k (vecs.length : ℤ)).toNat)) := by
  obtain ⟨idx, cands⟩ := st
  simp only at hidx
  subst hidx
  simp only [findMatches] at h
  split_ifs at h
  exact (Except.ok.inj h).symm

/-- Membership in the sorted results coincides with membership in the
unsorted ones. -/
theorem mem_sortResultsByStored {l : List MatchResult} {r : MatchResult} :
    r ∈ sortResultsByStored l ↔ r ∈ l :=
  (List.perm_insertionSort _ l).mem_iff

/-- Filtering by an exact key value commutes with the stable descending
insertion into a list: the inserted element lands in front of the
equal-key elements already present, because only strictly larger keys
are passed over. -/
theorem filter_orderedInsert_key (key : MatchResult → ℚ) (v : ℚ) (a : MatchResult)
    (l : List MatchResult) :
    (List.orderedInsert (descBy key) a l).filter (fun r => key r == v) =
      (if key a = v then [a] else []) ++ l.filter (fun r => key r == v) := by
  induction l with
  | nil =>
    simp only [List.orderedInsert, List.filter_cons, List.filter_nil]
    by_cases h : key a = v <;> simp [h]
  | cons b bs ih =>
    by_cases hab : descBy key a b
    · simp only [List.orderedInsert, if_pos hab, List.filter_cons]
      by_cases h : key a = v <;> by_cases hb : key b = v <;> simp [h, hb]
    · have hlt : key a < key b := lt_of_not_le hab
      simp only [List.orderedInsert, if_neg hab, List.filter_cons, ih]
      by_cases hb : key b = v
      · have ha : ¬ key a = v := by
          intro ha
          rw [ha, hb] at hlt
          exact lt_irrefl _ hlt
        simp [hb, ha]
      · simp [hb]

/-- Stability of the final sort of `find_matches`: for every key value,
the entries carrying that exact stored percentage appear in the same
relative order as in the unsorted input. -/
theorem filter_sortResultsByStored (v : ℚ) (l : List MatchResult) :
    (sortResultsByStored l).filter (fun r => r.match_percentage == v) =
      l.filter (fun r => r.match_percentage == v) := by
  induction l with
  | nil => rfl
  | cons a as ih =>
    simp only [sortResultsByStored, List.insertionSort] at ih ⊢
    rw [filter_orderedInsert_key (fun r => r.match_percentage) v a, ih, List.filter_cons]
    split_ifs with h <;> simp_all

/-! ### C1: the distance-to-percentage conversion -/

/-- C1: the match percentage is `100 / (1 + distance)` of the raw
squared-Euclidean distance: it equals exactly 100 at distance 0, is
strictly decreasing in the distance, lies in `(0, 100]` for every
distance `≥ 0`, and every result produced by a query stores exactly the
2-decimal rounding of that quantity computed from its stored raw
distance. -/
theorem spec_c1_score (d : ℚ) (hd : 0 ≤ d) :
    matchPercentageRaw 0 = 100 ∧
    (∀ d2 : ℚ, d < d2 → matchPercentageRaw d2 < matchPercentageRaw d) ∧
    (0 < matchPercentageRaw d ∧ matchPercentageRaw d ≤ 100) ∧
    (∀ (encode : String → List ℚ) (setOrder : List String → List String)
      (st : MatcherState) (query : String) (k : ℤ) (minScore : ℚ)
      (res : List MatchResult),
      findMatches encode setOrder st query k minScore = .ok res →
      ∀ r ∈ res, r.match_percentage = roundTo2 (matchPercentageRaw r.distance)) := by
  have h1 : (0 : ℚ) < 1 + d := by linarith
  refine ⟨by norm_num [matchPercentageRaw], ?_, ⟨?_, ?_⟩, ?_⟩
  · intro d2 hlt
    have h2 : 1 + d < 1 + d2 := by linarith
    exact mul_lt_mul_of_pos_right (one_div_lt_one_div_of_lt h1 h2) (by norm_num)
  · exact mul_pos (one_div_pos.mpr h1) (by norm_num)
  · have hle : 1 / (1 + d) ≤ 1 := by
      rw [div_le_one h1]; linarith
    calc (1 / (1 + d)) * 100 ≤ 1 * 100 := by nlinarith
      _ = 100 := by norm_num
  · intro encode setOrder st query k minScore res hok r hr
    rcases hidx : st.index with _ | vecs
    · rw [findMatches, hidx] at hok
      exact absurd hok (by simp)
    · rw [findMatches_ok_shape hidx hok] at hr
      exact (mem_buildRawResults (mem_sortResultsByStored.mp hr)).1

/-- C1 witness: the score properties instantiated at concrete
distances 3 and 5. -/
theorem spec_c1_score_witness :
    matchPercentageRaw 0 = 100 ∧ matchPercentageRaw 5 < matchPercentageRaw 3 ∧
      0 < matchPercentageRaw 3 ∧ matchPercentageRaw 3 ≤ 100 := by
  obtain ⟨h1, h2, h3, _⟩ := spec_c1_score 3 (by norm_num)
  exact ⟨h1, h2 5 (by norm_num), h3.1, h3.2⟩

/-! ### C5 and C10: query validation -/

/-- Fixed example embeddings and states used by concrete witnesses and
counterexamples. -/
def encC3 : String → List ℚ :=
  fun s => if s = "senior software engineer" then [(5 : ℚ) / 4] else [0]

/-- A single-candidate corpus whose summary is embedded at `[5/4]` by
`encC3`. -/
def cands3 : List Candidate :=
  [⟨"A", some "senior software engineer", ⟨[], [], [], []⟩⟩]

/-- The matcher state after `create_index(cands3)` with model `encC3`. -/
def st3 : MatcherState := ⟨some ((createIndexTexts cands3).map encC3), cands3⟩

/-- C5 counterexample: with a built, non-empty index and a valid query
text, `find_matches` with `k = 0` does not raise the `InvalidQuery`
validation error — `k` is never validated (src/vector.py, lines
137-141); the non-positive `k` reaches the FAISS call, whose failure
the generic `except` of line 203 re-raises as a plain `Exception`. -/
theorem spec_c5_counterexample :
    findMatches encC3 dedupOrder st3 "python developer job" 0 0 =
        Except.error MatchError.searchFailed ∧
      findMatches encC3 dedupOrder st3 "python developer job" 0 0 ≠
        Except.error MatchError.invalidQuery := by
  constructor
  · rfl
  · decide

/-- C5 (amended): the index check comes first and raises
`IndexNotBuilt`; an empty or shorter-than-3-after-strip query then
raises `InvalidQuery`; a non-positive `k` is not validated and instead
makes the search call itself fail with the generic wrapper error. -/
theorem spec_c5_amended (encode : String → List ℚ)
    (setOrder : List String → List String) (st : MatcherState) (query : String)
    (k : ℤ) (minScore : ℚ) :
    (st.index = none →
      findMatches encode setOrder st query k minScore = .error .indexNotBuilt) ∧
    (∀ vecs, st.index = some vecs → (query = "" ∨ (strTrim query).length < 3) →
      findMatches encode setOrder st query k minScore = .error .invalidQuery) ∧
    (∀ vecs, st.index = some vecs → ¬(query = "" ∨ (strTrim query).length < 3) → k ≤ 0 →
      findMatches encode setOrder st query k minScore = .error .searchFailed) := by
  obtain ⟨idx, cands⟩ := st
  refine ⟨fun h => ?_, fun vecs h hq => ?_, fun vecs h hq hk => ?_⟩
  · simp only at h
    subst h
    rfl
  · simp only at h
    subst h
    simp only [findMatches, if_pos hq]
  · simp only at h
    subst h
    have hact : min k (vecs.length : ℤ) ≤ 0 := le_trans (min_le_left _ _) hk
    simp only [findMatches, if_neg hq, if_pos hact]

/-- C5 witness: the amended validation behaviour at concrete inputs —
an unbuilt index raises `IndexNotBuilt`, and the spec scenario
`query(handle, "", k=5)` raises `InvalidQuery` on a built index. -/
theorem spec_c5_amended_witness :
    findMatches encC3 dedupOrder ⟨none, []⟩ "python developer job" 5 0 =
        Except.error MatchError.indexNotBuilt ∧
      findMatches encC3 dedupOrder st3 "" 5 0 = Except.error MatchError.invalidQuery := by
  refine ⟨(spec_c5_amended encC3 dedupOrder ⟨none, []⟩ "python developer job" 5 0).1 rfl, ?_⟩
  exact (spec_c5_amended encC3 dedupOrder st3 "" 5 0).2.1 _ rfl (by decide)

/-- C10: any query whose stripped length is below 3 — including
non-empty, non-whitespace strings — is rejected with the same
`InvalidQuery` error as the empty string, for every embedding model,
set ordering, index content and `k` (so before any embedding or search
can influence the outcome). -/
theorem spec_c10_short_query (encode : String → List ℚ)
    (setOrder : List String → List String) (vecs : List (List ℚ))
    (cands : List Candidate) (query : String) (k : ℤ) (minScore : ℚ)
    (hshort : (strTrim query).length < 3) :
    findMatches encode setOrder ⟨some vecs, cands⟩ query k minScore =
        .error .invalidQuery ∧
      findMatches encode setOrder ⟨some vecs, cands⟩ "" k minScore =
        .error .invalidQuery := by
  constructor
  · simp only [findMatches, if_pos (Or.inr hshort)]
  · simp [findMatches]

/-- C10 witness: the two-letter skill name `"Go"` is rejected exactly
like the empty string. -/
theorem spec_c10_short_query_witness :
    findMatches encC3 dedupOrder ⟨some [[0]], []⟩ "Go" 5 0 =
        Except.error MatchError.invalidQuery ∧
      findMatches encC3 dedupOrder ⟨some [[0]], []⟩ "" 5 0 =
        Except.error MatchError.invalidQuery :=
  spec_c10_short_query encC3 dedupOrder [[0]] [] "Go" 5 0 (by decide)

/-! ### C6 and C7: missing qualifications -/

/-- C6: for every admissible set iteration order, `_find_missing_skills`
returns at most 5 entries, without duplicates, and every entry is the
title-cased form of a vocabulary term that is a case-insensitive
substring of the query text and absent from the case-folded space-join
of the candidate skills. -/
theorem spec_c6_missing_skills (setOrder : List String → List String)
    (query : String) (skills : List String)
    (hperm : List.Perm (setOrder (missingRaw query skills))
      (missingRaw query skills).dedup) :
    (findMissingSkills setOrder query skills).length ≤ 5 ∧
    (findMissingSkills setOrder query skills).Nodup ∧
    ∀ e ∈ findMissingSkills setOrder query skills,
      ∃ t ∈ techKeywords, e = pythonTitle t ∧
        strContains (strLower query) t = true ∧
        strContains (String.intercalate " " (skills.map strLower)) t = false := by
  refine ⟨List.length_take_le _ _, ?_, ?_⟩
  · exact (List.take_sublist _ _).nodup (hperm.nodup_iff.mpr (List.nodup_dedup _))
  · intro e he
    have h1 : e ∈ setOrder (missingRaw query skills) := List.mem_of_mem_take he
    have h2 : e ∈ missingRaw query skills := List.mem_dedup.mp (hperm.mem_iff.mp h1)
    simp only [missingRaw, List.mem_map, List.mem_filter] at h2
    obtain ⟨t, ⟨ht, hpred⟩, rfl⟩ := h2
    rw [Bool.and_eq_true, Bool.not_eq_true'] at hpred
    exact ⟨t, ht, rfl, hpred.1, hpred.2⟩

/-- C6 witness: the bound and the dedup property at a concrete query
and skill list, using the concrete `dedupOrder` set ordering. -/
theorem spec_c6_missing_skills_witness :
    (findMissingSkills dedupOrder "python and aws role" ["java"]).length ≤ 5 ∧
      (findMissingSkills dedupOrder "python and aws role" ["java"]).Nodup := by
  have h := spec_c6_missing_skills dedupOrder "python and aws role" ["java"]
    (List.Perm.refl _)
  exact ⟨h.1, h.2.1⟩

/-- A second admissible set iteration order (sets carry no order
guarantee), under which the output is reversed. -/
def badSetOrder : List String → List String := fun l => l.dedup.reverse

/-- C7 counterexample: the entries of `_find_missing_skills` need not
appear in the vocabulary iteration order.  `list(set(...))` may
enumerate the set in any order; under the admissible order
`badSetOrder` the query `"python and java developer"` yields
`["Java", "Python"]`, while the vocabulary order is
`["Python", "Java"]`. -/
theorem spec_c7_counterexample :
    List.Perm (badSetOrder (missingRaw "python and java developer" []))
        ((missingRaw "python and java developer" []).dedup) ∧
      findMissingSkills badSetOrder "python and java developer" [] =
        ["Java", "Python"] ∧
      (missingRaw "python and java developer" []).dedup.take 5 =
        ["Python", "Java"] ∧
      findMissingSkills badSetOrder "python and java developer" [] ≠
        (missingRaw "python and java developer" []).dedup.take 5 := by
  refine ⟨List.reverse_perm _, by decide, by decide, by decide⟩

/-- C7 (amended): the list built before the `set` pass does follow the
vocabulary iteration order (it is a sublist of the title-cased
vocabulary), and the returned entries all come from that list without
duplication; but their relative order is the set iteration order, which
is only deterministic for a fixed hash seed, not the vocabulary
order. -/
theorem spec_c7_amended (setOrder : List String → List String)
    (query : String) (skills : List String)
    (hperm : List.Perm (setOrder (missingRaw query skills))
      (missingRaw query skills).dedup) :
    List.Sublist (missingRaw query skills) (techKeywords.map pythonTitle) ∧
    (∀ e ∈ findMissingSkills setOrder query skills, e ∈ missingRaw query skills) ∧
    (findMissingSkills setOrder query skills).Nodup := by
  refine ⟨?_, ?_, ?_⟩
  · exact List.Sublist.map pythonTitle (List.filter_sublist _)
  · intro e he
    exact List.mem_dedup.mp (hperm.mem_iff.mp (List.mem_of_mem_take he))
  · exact (List.take_sublist _ _).nodup (hperm.nodup_iff.mpr (List.nodup_dedup _))

/-- C7 witness: the vocabulary-order property of the pre-`set` list at
a concrete query. -/
theorem spec_c7_amended_witness :
    List.Sublist (missingRaw "python docker pipelines" [])
      (techKeywords.map pythonTitle) :=
  (spec_c7_amended dedupOrder "python docker pipelines" [] (List.Perm.refl _)).1

/-! ### C8: the fallback text -/

/-- A candidate with no usable field at all. -/
def emptyCand : Candidate := ⟨"X", none, ⟨[], [], [], []⟩⟩

/-- C8 counterexample: for a candidate with no summary and no
structured data, the normalizer returns the fixed placeholder
`"Detay bilgi bulunamadı"` (src/vector.py, line 119), not the string
`"no information available"` stated by the claim. -/
theorem spec_c8_counterexample :
    normalizeText emptyCand = "Detay bilgi bulunamadı" ∧
      normalizeText emptyCand ≠ "no information available" := by
  constructor
  · rfl
  · decide

/-- A non-empty string prefix keeps a concatenation non-empty. -/
theorem append_ne_empty_left {a : String} (b : String) (h : a ≠ "") :
    a ++ b ≠ "" := by
  intro heq
  apply h
  have hl := congrArg String.length heq
  rw [String.length_append] at hl
  have h0 : a.length = 0 := by
    have hz : "".length = 0 := rfl
    omega
  exact String.ext (List.length_eq_zero.mp h0)

/-- C8 (amended): whenever the summary is absent, empty, or shorter
than 10 characters after stripping, the normalizer returns the fallback
text; the fallback equals the fixed placeholder
`"Detay bilgi bulunamadı"` when no clause is available, every produced
clause is non-empty (so the `"; "`-join keeps them apart in order), and
the call always returns a non-empty string — it never fails. -/
theorem spec_c8_amended (c : Candidate)
    (hsum : c.summary.getD "" = "" ∨ (strTrim (c.summary.getD "")).length < 10) :
    normalizeText c = createFallbackText c ∧
    (fallbackParts c = [] → createFallbackText c = "Detay bilgi bulunamadı") ∧
    (∀ part ∈ fallbackParts c, part ≠ "") ∧
    createFallbackText c ≠ "" := by
  refine ⟨?_, ?_, ?_, ?_⟩
  · simp only [normalizeText]
    rw [if_pos hsum]
  · intro h
    simp only [createFallbackText, h]
    decide
  · intro part hmem
    simp only [fallbackParts, List.mem_append] at hmem
    rcases hmem with ((h | h) | h) | h
    · rcases hn : c.cv_data.names with _ | ⟨n, ns⟩ <;> rw [hn] at h
      · exact absurd h (by simp)
      · simp only [List.mem_singleton] at h
        subst h
        exact append_ne_empty_left _ (by decide)
    · split_ifs at h
      · exact absurd h (by simp)
      · simp only [List.mem_singleton] at h
        subst h
        exact append_ne_empty_left _ (by decide)
    · split_ifs at h
      · exact absurd h (by simp)
      · exact absurd h (by simp)
      · simp only [List.mem_singleton] at h
        subst h
        exact append_ne_empty_left _ (by decide)
    · split_ifs at h
      · exact absurd h (by simp)
      · exact absurd h (by simp)
      · simp only [List.mem_singleton] at h
        subst h
        exact append_ne_empty_left _ (by decide)
  · simp only [createFallbackText]
    split_ifs
    · decide
    · assumption

/-- C8 witness: a candidate whose summary is too short falls back to
the synthesized text, which is never empty. -/
theorem spec_c8_amended_witness :
    normalizeText ⟨"Y", some "short", ⟨["Ayşe"], ["Go", "Kubernetes"], [], []⟩⟩ =
        createFallbackText ⟨"Y", some "short", ⟨["Ayşe"], ["Go", "Kubernetes"], [], []⟩⟩ ∧
      createFallbackText ⟨"Y", some "short", ⟨["Ayşe"], ["Go", "Kubernetes"], [], []⟩⟩ ≠ "" := by
  have h := spec_c8_amended ⟨"Y", some "short", ⟨["Ayşe"], ["Go", "Kubernetes"], [], []⟩⟩
    (Or.inr (by decide))
  exact ⟨h.1, h.2.2.2⟩

/-! ### C9: failed rebuilds -/

/-- A candidate already indexed before the failing rebuild. -/
def candA : Candidate := ⟨"A", some "python backend developer", ⟨[], [], [], []⟩⟩

/-- The replacement candidate supplied to the failing rebuild. -/
def candB : Candidate := ⟨"B", some "java frontend developer!", ⟨[], [], [], []⟩⟩

/-- A matcher state with an index built over `[candA]`. -/
def stOld : MatcherState := ⟨some [[3]], [candA]⟩

/-- An embedding model whose encode call fails on every input, standing
for an exception at `model.encode` (src/vector.py, line 60). -/
def encFail : String → Option (List ℚ) := fun _ => none

/-- An embedding model whose encode call always succeeds with the
length embedding. -/
def encSome : String → Option (List ℚ) := fun s => some [(s.length : ℚ)]

/-- An array-conversion/add step that fails, standing for an exception
in lines 64-71 of src/vector.py, after `self.index` was reassigned. -/
def addFail : List (List ℚ) → Option (List (List ℚ)) := fun _ => none

/-- An array-conversion/add step that succeeds without NaN cleanup. -/
def addOk : List (List ℚ) → Option (List (List ℚ)) := fun l => some l

/-- C9 counterexample: a rebuild over `[candB]` that fails partway does
not leave the previous index/candidate pair unchanged.  If the
embedding call fails, `self.candidates` is already `[candB]`
(src/vector.py, line 44 runs first) while the index is still the one
built from `[candA]`; if the failure comes after line 63 reassigned
`self.index = faiss.IndexFlatL2(...)`, the old index is destroyed and
replaced by a fresh empty one. -/
theorem spec_c9_counterexample :
    (createIndexSt encFail addOk stOld [candB]).2 = some BuildError.buildFailed ∧
      (createIndexSt encFail addOk stOld [candB]).1.candidates ≠ stOld.candidates ∧
      (createIndexSt encFail addOk stOld [candB]).1.index = stOld.index ∧
      (createIndexSt encSome addFail stOld [candB]).2 = some BuildError.buildFailed ∧
      (createIndexSt encSome addFail stOld [candB]).1.index = some [] ∧
      (createIndexSt encSome addFail stOld [candB]).1.index ≠ stOld.index := by
  refine ⟨rfl, ?_, rfl, rfl, rfl, ?_⟩ <;> decide

/-- C9 (amended): rebuild is not all-or-nothing, and which part of the
old state survives depends on where the rebuild fails.  An empty
candidate list is rejected before any state is touched.  Otherwise
`self.candidates` is replaced first; then a failure in the embedding
step (through line 63's constructor call) leaves the old index paired
with the new candidate list, while a failure in the array
conversion/add of lines 64-71 — which run after `self.index` was
reassigned — leaves a fresh empty index: the previously built index is
destroyed.  On success the new index holds the added vectors. -/
theorem spec_c9_amended (encode? : String → Option (List ℚ))
    (add? : List (List ℚ) → Option (List (List ℚ))) (st : MatcherState)
    (cands : List Candidate) :
    (cands = [] → createIndexSt encode? add? st cands = (st, some .emptyCorpus)) ∧
    (cands ≠ [] → (createIndexTexts cands).mapM encode? = none →
      createIndexSt encode? add? st cands =
        ({ index := st.index, candidates := cands }, some .buildFailed)) ∧
    (∀ embs, cands ≠ [] → (createIndexTexts cands).mapM encode? = some embs →
      add? embs = none →
      createIndexSt encode? add? st cands =
        ({ index := some [], candidates := cands }, some .buildFailed)) ∧
    (∀ embs arr, cands ≠ [] → (createIndexTexts cands).mapM encode? = some embs →
      add? embs = some arr →
      createIndexSt encode? add? st cands =
        ({ index := some arr, candidates := cands }, none)) := by
  refine ⟨fun h => ?_, fun hne hfail => ?_, fun embs hne henc hadd => ?_,
    fun embs arr hne henc hadd => ?_⟩
  · subst h
    rfl
  · have hie : ¬(cands.isEmpty = true) := by
      simpa [List.isEmpty_iff] using hne
    simp only [createIndexSt, if_neg hie, hfail]
  · have hie : ¬(cands.isEmpty = true) := by
      simpa [List.isEmpty_iff] using hne
    simp only [createIndexSt, if_neg hie, henc, hadd]
  · have hie : ¬(cands.isEmpty = true) := by
      simpa [List.isEmpty_iff] using hne
    simp only [createIndexSt, if_neg hie, henc, hadd]

/-- C9 witness: both amended failure modes at the concrete failing
rebuilds — an embedding failure keeps the old index next to the new
candidate list, and a post-reassignment failure leaves the fresh empty
index. -/
theorem spec_c9_amended_witness :
    createIndexSt encFail addOk stOld [candB] =
        ({ index := stOld.index, candidates := [candB] }, some BuildError.buildFailed) ∧
      createIndexSt encSome addFail stOld [candB] =
        ({ index := some [], candidates := [candB] }, some BuildError.buildFailed) :=
  ⟨(spec_c9_amended encFail addOk stOld [candB]).2.1 (by decide) (by decide),
    (spec_c9_amended encSome addFail stOld [candB]).2.2.1 [[(24 : ℚ)]] (by decide)
      (by decide) (by decide)⟩

/-! ### Geometry of the search -/

/-- Strict version of the search comparison. -/
def hitLt (a b : ℕ × ℚ) : Prop :=
  a.2 < b.2 ∨ (a.2 = b.2 ∧ a.1 < b.1)

instance : IsTotal (ℕ × ℚ) hitLe :=
  ⟨fun a b => by
    unfold hitLe
    rcases lt_trichotomy a.2 b.2 with h | h | h
    · exact Or.inl (Or.inl h)
    · rcases le_total a.1 b.1 with h1 | h1
      · exact Or.inl (Or.inr ⟨h, h1⟩)
      · exact Or.inr (Or.inr ⟨h.symm, h1⟩)
    · exact Or.inr (Or.inl h)⟩

instance : IsTrans (ℕ × ℚ) hitLe :=
  ⟨fun a b c hab hbc => by
    unfold hitLe at *
    rcases hab with h1 | ⟨h1, h2⟩ <;> rcases hbc with g1 | ⟨g1, g2⟩
    · exact Or.inl (lt_trans h1 g1)
    · exact Or.inl (g1 ▸ h1)
    · exact Or.inl (h1 ▸ g1)
    · exact Or.inr ⟨h1.trans g1, le_trans h2 g2⟩⟩

/-- The distance from a vector to itself is zero. -/
theorem sqDist_self (v : List ℚ) : sqDist v v = 0 := by
  induction v with
  | nil => rfl
  | cons x xs ih =>
    simp only [sqDist, List.zipWith_cons_cons, List.sum_cons] at ih ⊢
    rw [ih]
    ring

/-- Squared distances are non-negative. -/
theorem sqDist_nonneg (a b : List ℚ) : 0 ≤ sqDist a b := by
  induction a generalizing b with
  | nil => simp [sqDist]
  | cons x xs ih =>
    cases b with
    | nil => simp [sqDist]
    | cons y ys =>
      simp only [sqDist, List.zipWith_cons_cons, List.sum_cons]
      have h1 : 0 ≤ (x - y) * (x - y) := mul_self_nonneg _
      have h2 := ih ys
      simp only [sqDist] at h2
      linarith

/-- If `x` is the strict minimum of `l` for the search order, the
ascending insertion sort puts `x` first. -/
theorem insertionSort_cons_of_min {l : List (ℕ × ℚ)} {x : ℕ × ℚ} (hx : x ∈ l)
    (hmin : ∀ y ∈ l, y ≠ x → hitLt x y) :
    ∃ tl, List.insertionSort hitLe l = x :: tl := by
  have hperm := List.perm_insertionSort hitLe l
  have hsorted := List.sorted_insertionSort hitLe l
  rcases hs : List.insertionSort hitLe l with _ | ⟨h, tl⟩
  · rw [hs] at hperm
    exact absurd (hperm.mem_iff.mpr hx) (by simp)
  · refine ⟨tl, ?_⟩
    have hxs : x ∈ h :: tl := by
      rw [← hs]
      exact hperm.mem_iff.mpr hx
    rcases List.mem_cons.mp hxs with heq | hxtl
    · rw [heq]
    · rw [hs] at hsorted
      have hle : hitLe h x := (List.pairwise_cons.mp hsorted).1 x hxtl
      have hhl : h ∈ l := hperm.mem_iff.mp (by rw [hs]; exact List.mem_cons_self _ _)
      by_cases hhe : h = x
      · rw [hhe]
      · have hlt := hmin h hhl hhe
        exfalso
        rcases hle with h1 | ⟨h1, h2⟩ <;> rcases hlt with g1 | ⟨g1, g2⟩
        · exact absurd (lt_trans h1 g1) (lt_irrefl _)
        · exact absurd h1 (by rw [g1]; exact lt_irrefl _)
        · exact absurd g1 (by rw [h1]; exact lt_irrefl _)
        · exact absurd (lt_of_le_of_lt h2 g2) (lt_irrefl _)

/-! ### C2: the identity property -/

/-- An embedding model that maps every text to the one-dimensional
vector holding its length.  Deterministic, as required of the model. -/
def encLen : String → List ℚ := fun s => [(s.length : ℚ)]

/-- A single candidate whose summary contains characters that
`_clean_query` removes. -/
def cands2 : List Candidate := [⟨"A", some "C++ && C## engineer!!", ⟨[], [], [], []⟩⟩]

/-- The state after `create_index(cands2)` with model `encLen`. -/
def st2 : MatcherState := ⟨some ((createIndexTexts cands2).map encLen), cands2⟩

unseal Rat.add Rat.mul Rat.inv Rat.sub in
/-- C2 counterexample: querying with the exact embedded text of
candidate 0 returns it with raw distance 64, not 0.  The query path
cleans the text (`"C++ && C## engineer!!"` becomes `"C  C engineer"`)
before embedding, while `create_index` embedded the raw text, so for an
embedding that distinguishes the two strings the identity property
fails. -/
theorem spec_c2_counterexample :
    ((findMatches encLen dedupOrder st2 "C++ && C## engineer!!" 1 0).toOption.getD
        []).map (fun r => (r.candidate_id, r.distance)) = [("A", (64 : ℚ))] ∧
      (64 : ℚ) ≠ 0 := by
  constructor
  · decide
  · decide

/-- C2 (amended): if the text embedded for candidate `i` is invariant
under query cleaning, passes length validation, and position `i` is the
only position whose stored vector is at distance 0 from the embedding
of that text, then querying with that exact text and `k = 1` returns
exactly candidate `i` with raw distance 0. -/
theorem spec_c2_amended (encode : String → List ℚ)
    (setOrder : List String → List String) (cands : List Candidate) (i : ℕ)
    (cand : Candidate) (t : String)
    (hc : cands.get? i = some cand)
    (ht : (createIndexTexts cands).get? i = some t)
    (hclean : cleanQuery t = t)
    (hlen : 3 ≤ (strTrim t).length)
    (huniq : ∀ j, j < cands.length →
      sqDist (encode t) (((createIndexTexts cands).map encode).getD j []) = 0 → j = i) :
    (findMatches encode setOrder ⟨some ((createIndexTexts cands).map encode), cands⟩
        t 1 0).toOption.map (List.map fun r => (r.candidate_id, r.distance)) =
      some [(cand.idStr, (0 : ℚ))] := by
  have hic : i < cands.length := (List.get?_eq_some.mp hc).choose
  set texts := createIndexTexts cands with htexts
  set vecs := texts.map encode with hvecs
  have hvlen : vecs.length = cands.length := by
    simp [hvecs, htexts, createIndexTexts]
  have hvi : vecs.getD i [] = encode t := by
    unfold List.getD
    rw [hvecs, List.get?_map, ht]
    rfl
  have hq : encode (cleanQuery t) = encode t := by rw [hclean]
  have hq0 : sqDist (encode (cleanQuery t)) (vecs.getD i []) = 0 := by
    rw [hq, hvi]
    exact sqDist_self _
  have hx : (i, (0 : ℚ)) ∈
      (List.range vecs.length).map
        (fun j => (j, sqDist (encode (cleanQuery t)) (vecs.getD j []))) := by
    refine List.mem_map.mpr ⟨i, List.mem_range.mpr (hvlen ▸ hic), ?_⟩
    rw [hq0]
  have hmin : ∀ y ∈ (List.range vecs.length).map
      (fun j => (j, sqDist (encode (cleanQuery t)) (vecs.getD j []))),
      y ≠ (i, (0 : ℚ)) → hitLt (i, (0 : ℚ)) y := by
    intro y hy hne
    obtain ⟨j, hj, rfl⟩ := List.mem_map.mp hy
    have hjc : j < cands.length := hvlen ▸ List.mem_range.mp hj
    by_cases hji : j = i
    · exact absurd (by rw [hji, hq0]) hne
    · have hdj : sqDist (encode (cleanQuery t)) (vecs.getD j []) ≠ 0 := by
        intro h0
        rw [hq] at h0
        exact hji (huniq j hjc h0)
      have hnn := sqDist_nonneg (encode (cleanQuery t)) (vecs.getD j [])
      exact Or.inl (lt_of_le_of_ne hnn (Ne.symm hdj))
  obtain ⟨tl, hsort⟩ := insertionSort_cons_of_min hx hmin
  have hfs : faissSearch vecs (encode (cleanQuery t)) 1 = [(i, (0 : ℚ))] := by
    unfold faissSearch
    rw [hsort]
    rfl
  have hguard : ¬(t = "" ∨ (strTrim t).length < 3) := by
    rintro (rfl | hlt)
    · revert hlen
      decide
    · omega
  have hk1 : min (1 : ℤ) (vecs.length : ℤ) = 1 := by
    have h1 : (1 : ℤ) ≤ (vecs.length : ℤ) := by
      rw [hvlen]
      exact_mod_cast Nat.one_le_iff_ne_zero.mpr (by omega)
    exact min_eq_left h1
  have hkpos : ¬(min (1 : ℤ) (vecs.length : ℤ) ≤ 0) := by
    rw [hk1]
    decide
  have hstep : findMatches encode setOrder ⟨some vecs, cands⟩ t 1 0 =
      .ok (sortResultsByStored
        (buildRawResults setOrder t cands 0
          (faissSearch vecs (encode (cleanQuery t))
            (min (1 : ℤ) (vecs.length : ℤ)).toNat))) := by
    simp only [findMatches]
    rw [if_neg hguard, if_neg hkpos]
  rw [hstep, hk1]
  have htoNat : ((1 : ℤ)).toNat = 1 := rfl
  rw [htoNat, hfs]
  have hbuild : buildRawResults setOrder t cands 0 [(i, (0 : ℚ))] =
      [{ candidate_id := cand.idStr
         match_percentage := roundTo2 (matchPercentageRaw 0)
         missing_skills := findMissingSkills setOrder t cand.cv_data.skills
         explanation := generateExplanation (matchPercentageRaw 0)
           (findMissingSkills setOrder t cand.cv_data.skills) cand
         distance := 0 }] := by
    simp only [buildRawResults, List.filterMap_cons, List.filterMap_nil, hc]
    rw [if_neg (by norm_num [matchPercentageRaw])]
  rw [hbuild]
  rfl

/-- The candidate used by the C2 witness: its summary is already clean
for `_clean_query`. -/
def candW : Candidate := ⟨"W", some "python backend developer", ⟨[], [], [], []⟩⟩

/-- C2 witness: the amended identity property at a concrete one-element
corpus whose text survives cleaning unchanged. -/
theorem spec_c2_amended_witness :
    (findMatches encLen dedupOrder
        ⟨some ((createIndexTexts [candW]).map encLen), [candW]⟩
        "python backend developer" 1 0).toOption.map
      (List.map fun r => (r.candidate_id, r.distance)) = some [("W", (0 : ℚ))] :=
  spec_c2_amended encLen dedupOrder [candW] 0 candW "python backend developer"
    (by decide) (by decide) (by decide) (by decide)
    (fun j hj _ => by
      simp only [List.length_singleton] at hj
      omega)

/-! ### C3: filtering and ordering of the result set -/

unseal Rat.add Rat.mul Rat.inv Rat.sub in
/-- C3 counterexample: the returned sequence can contain an entry whose
match percentage is below `min_score`.  The `min_score` filter compares
the unrounded percentage (src/vector.py, line 174) but the stored
percentage is rounded (line 189): with distance 25/16 the raw
percentage 1600/41 ≈ 39.0244 passes `min_score = 39.024`, yet the
stored percentage is 39.02 < 39.024. -/
theorem spec_c3_counterexample :
    ((findMatches encC3 dedupOrder st3 "python developer job" 5
        (39024 / 1000)).toOption.getD []).any
      (fun r => decide (r.match_percentage < 39024 / 1000)) = true := by
  decide

/-- C3 (amended): every returned entry has unrounded percentage at
least `min_score` (the stored rounded percentage can dip slightly
below it), the sequence is sorted descending by the stored percentage,
and the sort is stable: for each exact percentage value the entries
keep the ascending-distance order in which the index returned them. -/
theorem spec_c3_amended (encode : String → List ℚ)
    (setOrder : List String → List String) (st : MatcherState) (query : String)
    (k : ℤ) (minScore : ℚ) (vecs : List (List ℚ)) (res : List MatchResult)
    (hidx : st.index = some vecs)
    (hok : findMatches encode setOrder st query k minScore = .ok res) :
    (∀ r ∈ res, minScore ≤ matchPercentageRaw r.distance) ∧
    res.Pairwise (descBy fun r => r.match_percentage) ∧
    (∀ v : ℚ, res.filter (fun r => r.match_percentage == v) =
      (buildRawResults setOrder query st.candidates minScore
        (faissSearch vecs (encode (cleanQuery query))
          (min k (vecs.length : ℤ)).toNat)).filter
        (fun r => r.match_percentage == v)) := by
  have hshape := findMatches_ok_shape hidx hok
  subst hshape
  refine ⟨?_, List.sorted_insertionSort _ _, fun v => filter_sortResultsByStored v _⟩
  intro r hr
  exact (mem_buildRawResults (mem_sortResultsByStored.mp hr)).2

unseal Rat.add Rat.mul Rat.inv Rat.sub in
/-- C3 witness: the min-score bound on the unrounded percentage at the
concrete run of the counterexample: the surviving entry passes
`min_score` on its full-precision percentage. -/
theorem spec_c3_amended_witness :
    (39024 / 1000 : ℚ) ≤ matchPercentageRaw
      ((((findMatches encC3 dedupOrder st3 "python developer job" 5
        (39024 / 1000)).toOption.getD []).getD 0 default).distance) := by
  have h := spec_c3_amended encC3 dedupOrder st3 "python developer job" 5
    (39024 / 1000) ((createIndexTexts cands3).map encC3)
    ((findMatches encC3 dedupOrder st3 "python developer job" 5
      (39024 / 1000)).toOption.getD []) rfl (by rfl)
  exact h.1 _ (by decide)

/-! ### C4: rounding versus sorting -/

/-- A result record shaped exactly like the code builds it, with raw
distance 60977/39023 (raw percentage 39.023, stored 39.02). -/
def resA : MatchResult :=
  ⟨"A", roundTo2 (matchPercentageRaw (60977 / 39023)), [], "", 60977 / 39023⟩

/-- A result record with raw distance 25/16 (raw percentage
1600/41 ≈ 39.0244, stored 39.02). -/
def resB : MatchResult :=
  ⟨"B", roundTo2 (matchPercentageRaw (25 / 16)), [], "", 25 / 16⟩

unseal Rat.add Rat.mul Rat.inv Rat.sub in
/-- C4 counterexample: the sorting comparisons are not performed on the
full-precision percentages.  The sort key of line 198 of src/vector.py
is the stored, already rounded `match_percentage` of line 189: on the
result set `[resA, resB]` (both rounding to 39.02 but with different
full-precision percentages) the sort of the code leaves the order
unchanged while a full-precision sort swaps the entries. -/
theorem spec_c4_counterexample :
    sortResultsByStored [resA, resB] ≠ sortResultsByRaw [resA, resB] ∧
      resA.match_percentage = resB.match_percentage ∧
      matchPercentageRaw resA.distance < matchPercentageRaw resB.distance := by
  refine ⟨by decide, by decide, by decide⟩

/-- C4 (amended): the final percentage stored in each result is the
2-decimal rounding of the raw percentage, and the result set is ordered
by the stable descending sort keyed on these stored, already rounded
percentages — rounding happens before the sorting comparisons, not
after them. -/
theorem spec_c4_amended (encode : String → List ℚ)
    (setOrder : List String → List String) (st : MatcherState) (query : String)
    (k : ℤ) (minScore : ℚ) (vecs : List (List ℚ)) (res : List MatchResult)
    (hidx : st.index = some vecs)
    (hok : findMatches encode setOrder st query k minScore = .ok res) :
    res = sortResultsByStored
      (buildRawResults setOrder query st.candidates minScore
        (faissSearch vecs (encode (cleanQuery query))
          (min k (vecs.length : ℤ)).toNat)) ∧
    ∀ r ∈ res, r.match_percentage = roundTo2 (matchPercentageRaw r.distance) := by
  have hshape := findMatches_ok_shape hidx hok
  refine ⟨hshape, fun r hr => ?_⟩
  rw [hshape] at hr
  exact (mem_buildRawResults (mem_sortResultsByStored.mp hr)).1

unseal Rat.add Rat.mul Rat.inv Rat.sub in
/-- C4 witness: at a concrete run, the stored percentage of the first
result equals the 2-decimal rounding of its raw percentage. -/
theorem spec_c4_amended_witness :
    (((findMatches encLen dedupOrder st2 "C++ && C## engineer!!" 1 0).toOption.getD
        []).getD 0 default).match_percentage =
      roundTo2 (matchPercentageRaw
        ((((findMatches encLen dedupOrder st2 "C++ && C## engineer!!" 1
          0).toOption.getD []).getD 0 default).distance)) := by
  have h := spec_c4_amended encLen dedupOrder st2 "C++ && C## engineer!!" 1 0
    ((createIndexTexts cands2).map encLen)
    ((findMatches encLen dedupOrder st2 "C++ && C## engineer!!" 1 0).toOption.getD [])
    rfl (by rfl)
  exact h.2 _ (by decide)

end VectorMatcher
